import Mathlib

/-!
Verification development for the POET closed-loop performance/power control
library (public contract in `src/inc/poet.h`).  The repository ships only the
public header; the decision engine, observation history, idle resolver and
lifecycle are specified in the design document and are modelled here from the
spec, faithful to its words.  Numeric magnitudes (`real_t`) are modelled as
rationals, an ordered numeric type with exact arithmetic.
-/

/-- The tradeoff (constraint) type from `poet.h`: `poet_tradeoff_type_t`. -/
inductive TradeoffType where
  | PERFORMANCE
  | POWER
deriving Repr, DecidableEq

/-- A control state from `poet.h`: `poet_control_state_t`.  Speedup and cost
are normalized to state 0; `idle_partner_id` names, for an idle state, the id
of another state with the same configuration which does not idle. -/
structure ControlState where
  id : Nat
  speedup : ℚ
  cost : ℚ
  idle_partner_id : Nat
deriving Repr, DecidableEq

/-- The active constraint: a tradeoff type together with its numeric goal. -/
structure Constraint where
  ctype : TradeoffType
  goal : ℚ
deriving Repr, DecidableEq

/-- Lookup a control state by id (first entry with that id). -/
def lookupState (table : List ControlState) (i : Nat) : Option ControlState :=
  table.find? (fun s => s.id == i)

/-- Generic selection of the best element of a list under a strict
"x is better than y" boolean relation; earlier elements win ties because a
later element replaces the incumbent only when strictly better. -/
def pickBest (b : α → α → Bool) : List α → Option α
  | [] => none
  | x :: xs =>
    match pickBest b xs with
    | none => some x
    | some m => some (if b x m then x else m)

theorem pickBest_eq_none_iff (b : α → α → Bool) (l : List α) :
    pickBest b l = none ↔ l = [] := by
  cases l with
  | nil => simp [pickBest]
  | cons x xs =>
    simp only [pickBest]
    cases h : pickBest b xs <;> simp

theorem pickBest_mem (b : α → α → Bool) {l : List α} {m : α}
    (h : pickBest b l = some m) : m ∈ l := by
  induction l generalizing m with
  | nil => simp [pickBest] at h
  | cons x xs ih =>
    simp only [pickBest] at h
    cases hx : pickBest b xs with
    | none =>
      rw [hx] at h
      simp at h
      simp [h]
    | some m' =>
      rw [hx] at h
      simp at h
      by_cases hb : b x m' = true
      · simp [hb] at h; simp [h]
      · simp [hb] at h
        right
        rw [← h]
        exact ih hx

/-- The element picked by `pickBest` is maximal: no list element is strictly
better than it, provided the relation is irreflexive and transitive. -/
theorem pickBest_maximal (b : α → α → Bool)
    (hirr : ∀ x, b x x = false)
    (htrans : ∀ x y z, b x y = true → b y z = true → b x z = true)
    {l : List α} {m : α} (h : pickBest b l = some m) :
    ∀ y ∈ l, b y m = false := by
  induction l generalizing m with
  | nil => simp [pickBest] at h
  | cons x xs ih =>
    simp only [pickBest] at h
    cases hx : pickBest b xs with
    | none =>
      rw [hx] at h
      simp at h
      have hxs : xs = [] := (pickBest_eq_none_iff b xs).mp hx
      subst hxs
      intro y hy
      simp at hy
      subst hy
      rw [← h]
      exact hirr y
    | some m' =>
      rw [hx] at h
      simp at h
      have hmax' : ∀ y ∈ xs, b y m' = false := ih hx
      intro y hy
      by_cases hb : b x m' = true
      · simp [hb] at h
        rw [← h]
        rcases List.mem_cons.mp hy with hy | hy
        · subst hy; exact hirr y
        · by_contra hyx
          have hyx' : b y x = true := by
            revert hyx; cases b y x <;> simp
          have : b y m' = true := htrans y x m' hyx' hb
          rw [hmax' y hy] at this
          exact Bool.noConfusion this
      · simp [hb] at h
        rw [← h]
        rcases List.mem_cons.mp hy with hy | hy
        · subst hy
          cases hbe : b y m'
          · rfl
          · exact absurd hbe hb
        · exact hmax' y hy

theorem pickBest_isSome (b : α → α → Bool) {l : List α} (h : l ≠ []) :
    ∃ m, pickBest b l = some m := by
  cases hx : pickBest b l with
  | none => exact absurd ((pickBest_eq_none_iff b l).mp hx) h
  | some m => exact ⟨m, rfl⟩

/-- "x is strictly better than y" for minimum-cost search: lower cost wins,
equal cost broken by lower id. -/
def costBetter (x y : ControlState) : Bool :=
  decide (x.cost < y.cost) || (decide (x.cost = y.cost) && decide (x.id < y.id))

/-- "x is strictly better than y" for maximum-speedup search: higher speedup
wins, equal speedup broken by lower id. -/
def speedupBetter (x y : ControlState) : Bool :=
  decide (y.speedup < x.speedup) ||
    (decide (x.speedup = y.speedup) && decide (x.id < y.id))

theorem costBetter_irrefl (x : ControlState) : costBetter x x = false := by
  simp [costBetter]

theorem costBetter_trans (x y z : ControlState)
    (hxy : costBetter x y = true) (hyz : costBetter y z = true) :
    costBetter x z = true := by
  simp only [costBetter, Bool.or_eq_true, Bool.and_eq_true, decide_eq_true_eq] at *
  rcases hxy with h1 | ⟨h1, h1'⟩ <;> rcases hyz with h2 | ⟨h2, h2'⟩
  · exact Or.inl (lt_trans h1 h2)
  · exact Or.inl (h2 ▸ h1)
  · exact Or.inl (h1 ▸ h2)
  · exact Or.inr ⟨h1.trans h2, lt_trans h1' h2'⟩

theorem speedupBetter_irrefl (x : ControlState) : speedupBetter x x = false := by
  simp [speedupBetter]

theorem speedupBetter_trans (x y z : ControlState)
    (hxy : speedupBetter x y = true) (hyz : speedupBetter y z = true) :
    speedupBetter x z = true := by
  simp only [speedupBetter, Bool.or_eq_true, Bool.and_eq_true,
    decide_eq_true_eq] at *
  rcases hxy with h1 | ⟨h1, h1'⟩ <;> rcases hyz with h2 | ⟨h2, h2'⟩
  · exact Or.inl (lt_trans h2 h1)
  · exact Or.inl (h2 ▸ h1)
  · exact Or.inl (h1 ▸ h2)
  · exact Or.inr ⟨h1.trans h2, lt_trans h1' h2'⟩

/-- Modelled from the spec: the DecisionEngine table search (spec §4.3); the
implementation of `poet_apply_control`'s decision step is absent from `src/`
(the repository ships only the header).  PERFORMANCE side: the minimum-cost
state among those with speedup at least the target (ties by lowest id),
falling back to the maximum-speedup state when none qualifies. -/
def decidePerfSearch (table : List ControlState) (target : ℚ) :
    Option ControlState :=
  match pickBest costBetter
      (table.filter (fun s => decide (target ≤ s.speedup))) with
  | some m => some m
  | none => pickBest speedupBetter table

/-- Modelled from the spec: the POWER-side table search of spec §4.3: the
maximum-speedup state among those with cost at most the target (ties by
lowest id), falling back to the minimum-cost state when none satisfies the
budget. -/
def decidePowerSearch (table : List ControlState) (target : ℚ) :
    Option ControlState :=
  match pickBest speedupBetter
      (table.filter (fun s => decide (s.cost ≤ target))) with
  | some m => some m
  | none => pickBest costBetter table

/-- Modelled from the spec: dispatch on the constraint type, scaling the
current state's speedup (resp. cost) by `goal / smoothed` to obtain the
absolute target (spec §4.3 steps 1-2). -/
def decideEngine (table : List ControlState) (c : Constraint)
    (curr : ControlState) (smoothedPerf smoothedPower : ℚ) :
    Option ControlState :=
  match c.ctype with
  | .PERFORMANCE => decidePerfSearch table (curr.speedup * (c.goal / smoothedPerf))
  | .POWER => decidePowerSearch table (curr.cost * (c.goal / smoothedPower))

theorem costBetter_false_iff (x y : ControlState) :
    costBetter x y = false ↔
      y.cost ≤ x.cost ∧ (x.cost = y.cost → y.id ≤ x.id) := by
  simp only [costBetter, Bool.or_eq_false_iff, Bool.and_eq_false_iff,
    decide_eq_false_iff_not, not_lt]
  constructor
  · rintro ⟨h1, h2⟩
    refine ⟨h1, fun he => ?_⟩
    rcases h2 with h2 | h2
    · exact absurd he h2
    · exact h2
  · rintro ⟨h1, h2⟩
    refine ⟨h1, ?_⟩
    by_cases he : x.cost = y.cost
    · exact Or.inr (h2 he)
    · exact Or.inl he

theorem speedupBetter_false_iff (x y : ControlState) :
    speedupBetter x y = false ↔
      x.speedup ≤ y.speedup ∧ (x.speedup = y.speedup → y.id ≤ x.id) := by
  simp only [speedupBetter, Bool.or_eq_false_iff, Bool.and_eq_false_iff,
    decide_eq_false_iff_not, not_lt]
  constructor
  · rintro ⟨h1, h2⟩
    refine ⟨h1, fun he => ?_⟩
    rcases h2 with h2 | h2
    · exact absurd he h2
    · exact h2
  · rintro ⟨h1, h2⟩
    refine ⟨h1, ?_⟩
    by_cases he : x.speedup = y.speedup
    · exact Or.inr (h2 he)
    · exact Or.inl he

/-- The two-state table of the spec's worked scenarios:
id 0 with speedup 1 and cost 1, id 1 with speedup 2 and cost 1.8. -/
def demoTable : List ControlState :=
  [⟨0, 1, 1, 0⟩, ⟨1, 2, 9/5, 0⟩]

/-- The PERFORMANCE-side search always returns a state of a nonempty table:
the minimum-cost qualifier (ties by lowest id) when a qualifier exists,
otherwise the maximum-speedup state of the whole table. -/
theorem decidePerfSearch_spec (table : List ControlState) (target : ℚ)
    (hne : table ≠ []) :
    ∃ m, decidePerfSearch table target = some m ∧ m ∈ table ∧
      ((∃ s ∈ table, target ≤ s.speedup) →
        target ≤ m.speedup ∧
        ∀ s ∈ table, target ≤ s.speedup →
          m.cost ≤ s.cost ∧ (m.cost = s.cost → m.id ≤ s.id)) ∧
      ((∀ s ∈ table, ¬ target ≤ s.speedup) →
        ∀ s ∈ table, s.speedup ≤ m.speedup ∧
          (s.speedup = m.speedup → m.id ≤ s.id)) := by
  cases hq : pickBest costBetter
      (table.filter (fun s => decide (target ≤ s.speedup))) with
  | some m =>
    have hmem := pickBest_mem _ hq
    rw [List.mem_filter, decide_eq_true_eq] at hmem
    obtain ⟨hmt, hms⟩ := hmem
    refine ⟨m, ?_, hmt, ?_, ?_⟩
    · simp only [decidePerfSearch, hq]
    · intro _
      refine ⟨hms, fun s hs hts => ?_⟩
      have hsf : s ∈ table.filter (fun s => decide (target ≤ s.speedup)) :=
        List.mem_filter.mpr ⟨hs, by simpa using hts⟩
      have := pickBest_maximal costBetter costBetter_irrefl
        costBetter_trans hq s hsf
      rw [costBetter_false_iff] at this
      exact ⟨this.1, fun he => this.2 he.symm⟩
    · intro hno
      exact absurd hms (hno m hmt)
  | none =>
    have hfe : table.filter (fun s => decide (target ≤ s.speedup)) = [] :=
      (pickBest_eq_none_iff _ _).mp hq
    obtain ⟨m, hm⟩ := pickBest_isSome speedupBetter hne
    refine ⟨m, ?_, pickBest_mem _ hm, ?_, ?_⟩
    · simp only [decidePerfSearch, hq, hm]
    · rintro ⟨s, hs, hts⟩
      exfalso
      have hsf : s ∈ table.filter (fun s => decide (target ≤ s.speedup)) :=
        List.mem_filter.mpr ⟨hs, by simpa using hts⟩
      rw [hfe] at hsf
      exact absurd hsf (List.not_mem_nil s)
    · intro _ s hs
      have := pickBest_maximal speedupBetter speedupBetter_irrefl
        speedupBetter_trans hm s hs
      rw [speedupBetter_false_iff] at this
      exact this

/-- The POWER-side search always returns a state of a nonempty table:
the maximum-speedup state within budget (ties by lowest id) when one exists,
otherwise the minimum-cost state of the whole table. -/
theorem decidePowerSearch_spec (table : List ControlState) (target : ℚ)
    (hne : table ≠ []) :
    ∃ m, decidePowerSearch table target = some m ∧ m ∈ table ∧
      ((∃ s ∈ table, s.cost ≤ target) →
        m.cost ≤ target ∧
        ∀ s ∈ table, s.cost ≤ target →
          s.speedup ≤ m.speedup ∧ (s.speedup = m.speedup → m.id ≤ s.id)) ∧
      ((∀ s ∈ table, ¬ s.cost ≤ target) →
        ∀ s ∈ table, m.cost ≤ s.cost ∧ (m.cost = s.cost → m.id ≤ s.id)) := by
  cases hq : pickBest speedupBetter
      (table.filter (fun s => decide (s.cost ≤ target))) with
  | some m =>
    have hmem := pickBest_mem _ hq
    rw [List.mem_filter, decide_eq_true_eq] at hmem
    obtain ⟨hmt, hms⟩ := hmem
    refine ⟨m, ?_, hmt, ?_, ?_⟩
    · simp only [decidePowerSearch, hq]
    · intro _
      refine ⟨hms, fun s hs hts => ?_⟩
      have hsf : s ∈ table.filter (fun s => decide (s.cost ≤ target)) :=
        List.mem_filter.mpr ⟨hs, by simpa using hts⟩
      have := pickBest_maximal speedupBetter speedupBetter_irrefl
        speedupBetter_trans hq s hsf
      rw [speedupBetter_false_iff] at this
      exact this
    · intro hno
      exact absurd hms (hno m hmt)
  | none =>
    have hfe : table.filter (fun s => decide (s.cost ≤ target)) = [] :=
      (pickBest_eq_none_iff _ _).mp hq
    obtain ⟨m, hm⟩ := pickBest_isSome costBetter hne
    refine ⟨m, ?_, pickBest_mem _ hm, ?_, ?_⟩
    · simp only [decidePowerSearch, hq, hm]
    · rintro ⟨s, hs, hts⟩
      exfalso
      have hsf : s ∈ table.filter (fun s => decide (s.cost ≤ target)) :=
        List.mem_filter.mpr ⟨hs, by simpa using hts⟩
      rw [hfe] at hsf
      exact absurd hsf (List.not_mem_nil s)
    · intro _ s hs
      have := pickBest_maximal costBetter costBetter_irrefl
        costBetter_trans hm s hs
      rw [costBetter_false_iff] at this
      exact ⟨this.1, fun he => this.2 he.symm⟩

/-- The property C1 asserts of a PERFORMANCE decision: some state of the table
is chosen; if any state reaches the target speedup
(current speedup scaled by goal / smoothed performance), the choice qualifies
and minimizes cost with ties broken by lowest id; otherwise the choice
maximizes speedup over the whole table. -/
def PerfChoiceSpec (table : List ControlState) (goal sp spw : ℚ)
    (curr : ControlState) : Prop :=
  ∃ m, decideEngine table ⟨TradeoffType.PERFORMANCE, goal⟩ curr sp spw = some m ∧
    m ∈ table ∧
    ((∃ s ∈ table, curr.speedup * (goal / sp) ≤ s.speedup) →
      curr.speedup * (goal / sp) ≤ m.speedup ∧
      ∀ s ∈ table, curr.speedup * (goal / sp) ≤ s.speedup →
        m.cost ≤ s.cost ∧ (m.cost = s.cost → m.id ≤ s.id)) ∧
    ((∀ s ∈ table, ¬ curr.speedup * (goal / sp) ≤ s.speedup) →
      ∀ s ∈ table, s.speedup ≤ m.speedup ∧ (s.speedup = m.speedup → m.id ≤ s.id))

/-- The property C2 asserts of a POWER decision: some state of the table is
chosen; if any state fits the cost budget (current cost scaled by
goal / smoothed power), the choice fits the budget and maximizes speedup with
ties broken by lowest id; otherwise the choice minimizes cost over the whole
table. -/
def PowerChoiceSpec (table : List ControlState) (goal sp spw : ℚ)
    (curr : ControlState) : Prop :=
  ∃ m, decideEngine table ⟨TradeoffType.POWER, goal⟩ curr sp spw = some m ∧
    m ∈ table ∧
    ((∃ s ∈ table, s.cost ≤ curr.cost * (goal / spw)) →
      m.cost ≤ curr.cost * (goal / spw) ∧
      ∀ s ∈ table, s.cost ≤ curr.cost * (goal / spw) →
        s.speedup ≤ m.speedup ∧ (s.speedup = m.speedup → m.id ≤ s.id)) ∧
    ((∀ s ∈ table, ¬ s.cost ≤ curr.cost * (goal / spw)) →
      ∀ s ∈ table, m.cost ≤ s.cost ∧ (m.cost = s.cost → m.id ≤ s.id))

/-- C1: for every nonempty control-state table, PERFORMANCE constraint,
current state and smoothed performance, the DecisionEngine chooses the
minimum-cost state among those whose speedup is at least the target speedup
(current speedup scaled by goal / smoothed performance), ties broken by
lowest id, falling back to the maximum-speedup state when no state meets the
target; and on the table with id 0 (speedup 1, cost 1) and id 1 (speedup 2,
cost 1.8), goal 1.5, current id 0, smoothed performance 1, the chosen id
is 1. -/
theorem C1_performance_decision :
    (∀ (table : List ControlState) (goal sp spw : ℚ) (curr : ControlState),
        table ≠ [] → PerfChoiceSpec table goal sp spw curr) ∧
    (decideEngine demoTable ⟨TradeoffType.PERFORMANCE, 3/2⟩ ⟨0, 1, 1, 0⟩ 1 1).map
      ControlState.id = some 1 := by
  constructor
  · intro table goal sp spw curr hne
    simpa only [PerfChoiceSpec, decideEngine] using
      decidePerfSearch_spec table (curr.speedup * (goal / sp)) hne
  · norm_num [decideEngine, decidePerfSearch, pickBest, demoTable,
      costBetter, speedupBetter, List.filter]

/-- Closed instance of C1 at the spec's worked scenario. -/
theorem C1_performance_decision_witness :
    demoTable ≠ [] ∧ PerfChoiceSpec demoTable (3/2) 1 1 ⟨0, 1, 1, 0⟩ :=
  ⟨by simp [demoTable],
   C1_performance_decision.1 demoTable (3/2) 1 1 ⟨0, 1, 1, 0⟩
     (by simp [demoTable])⟩

/-- C2: for every nonempty control-state table, POWER constraint, current
state and smoothed power, the DecisionEngine chooses the maximum-speedup
state among those whose cost is at most the target cost (current cost scaled
by goal / smoothed power), ties broken by lowest id — so the chosen cost never
exceeds the budget when any state fits it — falling back to the minimum-cost
state when no state fits; and on the table with id 0 (speedup 1, cost 1) and
id 1 (speedup 2, cost 1.8), goal 1, current id 1, smoothed power 1.8, the
chosen id is 0. -/
theorem C2_power_decision :
    (∀ (table : List ControlState) (goal sp spw : ℚ) (curr : ControlState),
        table ≠ [] → PowerChoiceSpec table goal sp spw curr) ∧
    (decideEngine demoTable ⟨TradeoffType.POWER, 1⟩ ⟨1, 2, 9/5, 0⟩ 1 (9/5)).map
      ControlState.id = some 0 := by
  constructor
  · intro table goal sp spw curr hne
    simpa only [PowerChoiceSpec, decideEngine] using
      decidePowerSearch_spec table (curr.cost * (goal / spw)) hne
  · norm_num [decideEngine, decidePowerSearch, pickBest, demoTable,
      costBetter, speedupBetter, List.filter]

/-- Closed instance of C2 at the spec's worked scenario. -/
theorem C2_power_decision_witness :
    demoTable ≠ [] ∧ PowerChoiceSpec demoTable 1 1 (9/5) ⟨1, 2, 9/5, 0⟩ :=
  ⟨by simp [demoTable],
   C2_power_decision.1 demoTable 1 1 (9/5) ⟨1, 2, 9/5, 0⟩
     (by simp [demoTable])⟩

/-- An observation sample (spec §3 ObservationSample): iteration identifier,
measured performance and power, and observed idle time. -/
structure Sample where
  iteration_id : Nat
  perf : ℚ
  pwr : ℚ
  idle_ns : Nat
deriving Repr, DecidableEq

/-- Modelled from the spec: `ObservationHistory.record` (spec §4.2); the
implementation is absent from `src/`.  Appends the sample at the end,
evicting the oldest entries when the buffer exceeds capacity `depth`. -/
def pushSample (depth : Nat) (buf : List Sample) (x : Sample) : List Sample :=
  let b := buf ++ [x]
  b.drop (b.length - depth)

/-- Record a whole sequence of samples in arrival order into an initially
empty history of capacity `depth`. -/
def recordAll (depth : Nat) (xs : List Sample) : List Sample :=
  xs.foldl (pushSample depth) []

/-- Modelled from the spec: the smoothed (window-averaged) performance
statistic of spec §4.2. -/
def smoothedPerfOf (buf : List Sample) : ℚ :=
  (buf.map Sample.perf).sum / buf.length

/-- Modelled from the spec: the smoothed (window-averaged) power statistic of
spec §4.2. -/
def smoothedPowerOf (buf : List Sample) : ℚ :=
  (buf.map Sample.pwr).sum / buf.length

/-- Summed idle time over the window, feeding the idle-fraction test. -/
def idleSumOf (buf : List Sample) : Nat :=
  (buf.map Sample.idle_ns).sum

/-- Modelled from the spec: the IdleStateResolver (spec §4.4); the
implementation is absent from `src/`.  When idle substitution is enabled and
warranted by observed idle time, substitutes the idle-capable variant of the
chosen state: a state is an idle variant when its `idle_partner_id` names
another state (poet.h lines 61-75); an already-idle chosen state is kept
unchanged, otherwise a table entry declaring the chosen id as its idle
partner is substituted.  A pure id-to-id lookup. -/
def resolveIdle (dis_idle warranted : Bool) (table : List ControlState)
    (chosenId : Nat) : Nat :=
  if dis_idle || !warranted then chosenId
  else
    match lookupState table chosenId with
    | none => chosenId
    | some chosen =>
      if chosen.idle_partner_id ≠ chosen.id then chosenId
      else
        match table.find? (fun t =>
            t.idle_partner_id == chosen.id && !(t.id == chosen.id)) with
        | some t => t.id
        | none => chosenId

/-- The aggregate controller state (spec §3 ControllerState), with the
process-wide toggles read once at construction (spec §5) and the
idle-fraction threshold exposed as configuration (spec §9). -/
structure ControllerState where
  constraint : Constraint
  table : List ControlState
  buffer_depth : Nat
  history : List Sample
  period : Nat
  iterations_since_decision : Nat
  current_state_id : Nat
  last_state_id : Nat
  is_first_apply : Bool
  disable_control : Bool
  disable_apply : Bool
  disable_idle : Bool
  idle_threshold_ns : Nat
deriving Repr, DecidableEq

/-- Per-iteration input to `poet_apply_control`: the caller-reported
measurements plus the result of the current-state callback
(`poet_curr_state_func`, poet.h lines 52-59), `none` modelling its -1
failure indicator. -/
structure IterInput where
  iteration_id : Nat
  perf : ℚ
  pwr : ℚ
  idle_ns : Nat
  probe : Option Nat
deriving Repr, DecidableEq

/-- One invocation of the apply collaborator (`poet_apply_func`,
poet.h lines 42-50): the arguments the dispatcher passes it. -/
structure ApplyCall where
  new_id : Nat
  last_id : Nat
  idle_ns : Nat
  is_first_apply : Bool
deriving Repr, DecidableEq

/-- Modelled from the spec: on probe failure the controller falls back to the
last known state id rather than aborting (spec §7, measurement
unavailability); the implementation is absent from `src/`. -/
def usedCurrId (s : ControllerState) (probe : Option Nat) : Nat :=
  probe.getD s.current_state_id

/-- The engine's chosen id as a function of its genuine inputs (spec §4.3):
the table, the active constraint, the current state id and the history
window; the current id is kept when it cannot be looked up. -/
def engineChoiceAt (table : List ControlState) (c : Constraint)
    (currId : Nat) (h' : List Sample) : Nat :=
  match lookupState table currId with
  | none => currId
  | some curr =>
    match decideEngine table c curr (smoothedPerfOf h') (smoothedPowerOf h') with
    | some m => m.id
    | none => currId

/-- The id the decision step settles on: the engine's choice from the updated
history, passed through the idle resolver. -/
def stepChoice (s : ControllerState) (x : IterInput) : Nat :=
  let h' := pushSample s.buffer_depth s.history
    ⟨x.iteration_id, x.perf, x.pwr, x.idle_ns⟩
  resolveIdle s.disable_idle (decide (s.idle_threshold_ns ≤ idleSumOf h'))
    s.table
    (engineChoiceAt s.table s.constraint (usedCurrId s x.probe) h')

/-- Modelled from the spec: one call of `poet_apply_control` (spec §2 control
flow, §4.5, §4.6); the implementation is absent from `src/` (header-only
repository).  Records the sample; every `period` iterations computes the
decision, dispatches the apply collaborator once (unless apply is disabled)
and updates `last_state_id` / `current_state_id` / `is_first_apply`.  With
the control toggle set the whole call is skipped. -/
def step (s : ControllerState) (x : IterInput) :
    ControllerState × List ApplyCall :=
  if s.disable_control then (s, [])
  else
    let h' := pushSample s.buffer_depth s.history
      ⟨x.iteration_id, x.perf, x.pwr, x.idle_ns⟩
    if s.iterations_since_decision + 1 < s.period then
      ({ s with
          history := h'
          iterations_since_decision := s.iterations_since_decision + 1 }, [])
    else
      let newId := stepChoice s x
      ({ s with
          history := h'
          iterations_since_decision := 0
          last_state_id := s.current_state_id
          current_state_id := newId
          is_first_apply := false },
       if s.disable_apply then []
       else [⟨newId, s.current_state_id, x.idle_ns, s.is_first_apply⟩])

/-- Run a sequence of `poet_apply_control` calls, collecting every apply
invocation in order. -/
def runSteps (s : ControllerState) :
    List IterInput → ControllerState × List ApplyCall
  | [] => (s, [])
  | x :: xs =>
    let p := step s x
    let q := runSteps p.1 xs
    (q.1, p.2 ++ q.2)

/-- The errno cause surfaced by a failed `poet_init` (poet.h line 103:
"NULL on failure (errno will be set)"). -/
inductive Errno where
  | EINVAL
deriving Repr, DecidableEq

/-- The arguments of `poet_init` (poet.h lines 105-114) that the validation
and construction depend on; a `none` table models a NULL pointer and a
present `log_filename` models a requested log. -/
structure InitArgs where
  goal : ℚ
  constraint : TradeoffType
  num_system_states : Nat
  control_states : Option (List ControlState)
  period : Nat
  buffer_depth : Nat
  log_filename : Option String
  disable_control : Bool
  disable_apply : Bool
  disable_idle : Bool
  idle_threshold_ns : Nat
deriving Repr, DecidableEq

/-- The documented preconditions of `poet_init` (poet.h lines 87-100,
spec §4.6): goal > 0, num_system_states > 0, table present, period > 0, and
buffer_depth > 0 whenever a log is requested. -/
def validInitArgs (a : InitArgs) : Bool :=
  decide (0 < a.goal) && decide (0 < a.num_system_states) &&
    a.control_states.isSome && decide (0 < a.period) &&
    (a.log_filename.isNone || decide (0 < a.buffer_depth))

/-- The controller state `poet_init` constructs from valid arguments:
empty history, zeroed counters, current and last state id 0, and the
first-apply flag set. -/
def initController (a : InitArgs) : ControllerState :=
  { constraint := ⟨a.constraint, a.goal⟩
    table := a.control_states.getD []
    buffer_depth := a.buffer_depth
    history := []
    period := a.period
    iterations_since_decision := 0
    current_state_id := 0
    last_state_id := 0
    is_first_apply := true
    disable_control := a.disable_control
    disable_apply := a.disable_apply
    disable_idle := a.disable_idle
    idle_threshold_ns := a.idle_threshold_ns }

/-- Modelled from the spec: `poet_init` (poet.h lines 77-114, spec §4.6); the
implementation is absent from `src/`.  Validates the preconditions; on any
violation constructs nothing and returns the failure signal (a NULL return
with errno set is modelled as `Except.error` carrying the errno), otherwise
the fully constructed initial controller. -/
def poet_init (a : InitArgs) : Except Errno ControllerState :=
  if validInitArgs a then Except.ok (initController a)
  else Except.error Errno.EINVAL

/-- `poet_set_constraint_type` (poet.h lines 123-132), modelled from the
spec (§4.6): atomically replaces the active constraint pair, touching
nothing else. -/
def poet_set_constraint_type (s : ControllerState) (t : TradeoffType)
    (g : ℚ) : ControllerState :=
  { s with constraint := ⟨t, g⟩ }

theorem pushSample_drop (L : List Sample) (y : Sample) (d : Nat) :
    pushSample d (L.drop (L.length - d)) y =
      (L ++ [y]).drop ((L ++ [y]).length - d) := by
  simp only [pushSample]
  have h1 : L.drop (L.length - d) ++ [y] = (L ++ [y]).drop (L.length - d) :=
    (List.drop_append_of_le_length (by omega)).symm
  rw [h1, List.drop_drop]
  congr 1
  simp [List.length_drop, List.length_append]
  omega

theorem foldl_pushSample (d : Nat) (xs : List Sample) :
    ∀ L : List Sample,
      xs.foldl (pushSample d) (L.drop (L.length - d)) =
        (L ++ xs).drop ((L ++ xs).length - d) := by
  induction xs with
  | nil => intro L; simp
  | cons x xs ih =>
    intro L
    rw [List.foldl_cons, pushSample_drop, ih (L ++ [x])]
    simp

theorem recordAll_eq_drop (d : Nat) (xs : List Sample) :
    recordAll d xs = xs.drop (xs.length - d) := by
  have h := foldl_pushSample d xs []
  simpa [recordAll] using h

/-- C4: for every positive buffer depth and every finite sequence of recorded
samples starting from an empty history, the buffer size never exceeds the
depth, its length is the minimum of the number of calls and the depth, and
its contents are exactly the most recent samples in arrival order (the
prefix of oldest samples being evicted). -/
theorem C4_history_bounded :
    ∀ (d : Nat) (xs : List Sample), 0 < d →
      (recordAll d xs).length ≤ d ∧
      (recordAll d xs).length = min xs.length d ∧
      recordAll d xs = xs.drop (xs.length - d) := by
  intro d xs _
  have h := recordAll_eq_drop d xs
  refine ⟨?_, ?_, h⟩
  · rw [h, List.length_drop]; omega
  · rw [h, List.length_drop]; omega

/-- Closed instance of C4: three samples into a depth-2 buffer keep exactly
the last two. -/
theorem C4_history_bounded_witness :
    0 < 2 ∧
      ((recordAll 2 [⟨0, 1, 1, 0⟩, ⟨1, 2, 1, 0⟩, ⟨2, 3, 1, 0⟩]).length ≤ 2 ∧
       (recordAll 2 [⟨0, 1, 1, 0⟩, ⟨1, 2, 1, 0⟩, ⟨2, 3, 1, 0⟩]).length =
         min ([⟨0, 1, 1, 0⟩, ⟨1, 2, 1, 0⟩, (⟨2, 3, 1, 0⟩ : Sample)]).length 2 ∧
       recordAll 2 [⟨0, 1, 1, 0⟩, ⟨1, 2, 1, 0⟩, ⟨2, 3, 1, 0⟩] =
         ([⟨0, 1, 1, 0⟩, ⟨1, 2, 1, 0⟩, (⟨2, 3, 1, 0⟩ : Sample)]).drop
           (([⟨0, 1, 1, 0⟩, ⟨1, 2, 1, 0⟩, (⟨2, 3, 1, 0⟩ : Sample)]).length - 2)) :=
  ⟨by decide,
   C4_history_bounded 2 [⟨0, 1, 1, 0⟩, ⟨1, 2, 1, 0⟩, ⟨2, 3, 1, 0⟩] (by decide)⟩

/-- The DecisionEngine's choice as a function of the controller state: lookup
of the current state, the engine search over the table under the active
constraint, fed by the smoothed history statistics. -/
def decisionView (s : ControllerState) : Option Nat :=
  ((lookupState s.table s.current_state_id).bind
    (fun curr => decideEngine s.table s.constraint curr
      (smoothedPerfOf s.history) (smoothedPowerOf s.history))).map
    ControlState.id

/-- C3: the decision is deterministic — two controller states agreeing on the
history window contents, the constraint, the table and the current state id
produce the identical chosen id, whatever their remaining fields hold. -/
theorem C3_decision_deterministic :
    ∀ s1 s2 : ControllerState,
      s1.history = s2.history → s1.constraint = s2.constraint →
      s1.table = s2.table → s1.current_state_id = s2.current_state_id →
      decisionView s1 = decisionView s2 := by
  intro s1 s2 h1 h2 h3 h4
  simp only [decisionView, h1, h2, h3, h4]

/-- Closed instance of C3: two states differing only in bookkeeping fields
(last id, first-apply flag, period counter) choose identically. -/
theorem C3_decision_deterministic_witness :
    decisionView
        ⟨⟨TradeoffType.PERFORMANCE, 3/2⟩, demoTable, 4, [], 2, 0, 0, 0,
          true, false, false, false, 0⟩ =
      decisionView
        ⟨⟨TradeoffType.PERFORMANCE, 3/2⟩, demoTable, 4, [], 2, 1, 0, 7,
          false, false, false, false, 0⟩ :=
  C3_decision_deterministic _ _ rfl rfl rfl rfl

/-- A violated `poet_init` precondition (poet.h lines 87-100): nonpositive
goal, empty state count, absent table, zero period, or zero buffer depth
while a log is requested. -/
def InitViolation (a : InitArgs) : Prop :=
  a.goal ≤ 0 ∨ a.num_system_states = 0 ∨ a.control_states = none ∨
    a.period = 0 ∨ (a.buffer_depth = 0 ∧ a.log_filename ≠ none)

theorem validInitArgs_iff (a : InitArgs) :
    validInitArgs a = true ↔ ¬ InitViolation a := by
  simp only [validInitArgs, InitViolation, Bool.and_eq_true, Bool.or_eq_true,
    decide_eq_true_eq, Option.isSome_iff_ne_none, Option.isNone_iff_eq_none]
  push_neg
  constructor
  · rintro ⟨⟨⟨⟨hg, hn⟩, ht⟩, hp⟩, hb⟩
    refine ⟨hg, by omega, ht, by omega, fun h0 => ?_⟩
    rcases hb with hb | hb
    · exact hb
    · omega
  · rintro ⟨hg, hn, ht, hp, hb⟩
    refine ⟨⟨⟨⟨hg, by omega⟩, ht⟩, by omega⟩, ?_⟩
    by_cases h0 : a.buffer_depth = 0
    · exact Or.inl (hb h0)
    · exact Or.inr (by omega)

/-- C5: initialization fails — returning no controller object, only the
failure signal — if and only if a precondition violation holds: goal ≤ 0,
no system states, absent table, zero period, or zero buffer depth while a
log is requested; when no violation holds a controller is returned. -/
theorem C5_init_validation :
    ∀ a : InitArgs,
      ((∃ e, poet_init a = Except.error e) ↔ InitViolation a) ∧
      (¬ InitViolation a → ∃ st, poet_init a = Except.ok st) := by
  intro a
  by_cases hv : validInitArgs a = true
  · have hnv := (validInitArgs_iff a).mp hv
    constructor
    · simp [poet_init, hv, hnv]
    · intro _
      exact ⟨initController a, by simp [poet_init, initController, hv]⟩
  · have hvf : validInitArgs a = false := by
      revert hv; cases validInitArgs a <;> simp
    have hviol : InitViolation a := by
      by_contra h
      exact hv ((validInitArgs_iff a).mpr h)
    constructor
    · constructor
      · intro _; exact hviol
      · intro _; exact ⟨Errno.EINVAL, by simp [poet_init, hvf]⟩
    · intro h
      exact absurd hviol h

/-- Valid demonstration arguments for initialization. -/
def demoInitArgs : InitArgs :=
  ⟨1, TradeoffType.PERFORMANCE, 2, some demoTable, 2, 4, none,
    false, false, false, 0⟩

/-- Closed instance of C5: the demonstration arguments violate nothing, so a
controller is constructed. -/
theorem C5_init_validation_witness :
    ¬ InitViolation demoInitArgs ∧
      ∃ st, poet_init demoInitArgs = Except.ok st :=
  ⟨by simp [InitViolation, demoInitArgs],
   (C5_init_validation demoInitArgs).2
     (by simp [InitViolation, demoInitArgs])⟩

/-- C10: at the public interface, every initialization either fails with an
errno-carrying NULL signal and no controller, or succeeds with a controller,
never both — so callers can distinguish failure solely by the NULL return —
and success happens exactly on valid arguments. -/
theorem C10_init_null_signal :
    ∀ a : InitArgs,
      ((∃ e, poet_init a = Except.error e) ∨
        (∃ st, poet_init a = Except.ok st)) ∧
      ¬ ((∃ e, poet_init a = Except.error e) ∧
        (∃ st, poet_init a = Except.ok st)) ∧
      ((∃ st, poet_init a = Except.ok st) ↔ validInitArgs a = true) := by
  intro a
  by_cases hv : validInitArgs a = true
  · simp [poet_init, hv]
  · have hvf : validInitArgs a = false := by
      revert hv; cases validInitArgs a <;> simp
    have hp : poet_init a = Except.error Errno.EINVAL := by
      simp [poet_init, hvf]
    rw [hp]
    refine ⟨Or.inl ⟨Errno.EINVAL, rfl⟩, ?_, ?_⟩
    · rintro ⟨-, ⟨st, hst⟩⟩
      exact Except.noConfusion hst
    · constructor
      · rintro ⟨st, hst⟩
        exact Except.noConfusion hst
      · intro h
        rw [hvf] at h
        exact Bool.noConfusion h

/-- Closed instance of C10 at the demonstration arguments. -/
theorem C10_init_null_signal_witness :
    ((∃ e, poet_init demoInitArgs = Except.error e) ∨
      (∃ st, poet_init demoInitArgs = Except.ok st)) ∧
    ¬ ((∃ e, poet_init demoInitArgs = Except.error e) ∧
      (∃ st, poet_init demoInitArgs = Except.ok st)) ∧
    ((∃ st, poet_init demoInitArgs = Except.ok st) ↔
      validInitArgs demoInitArgs = true) :=
  C10_init_null_signal demoInitArgs

theorem step_skip (s : ControllerState) (x : IterInput)
    (h : s.disable_control = true) : step s x = (s, []) := by
  simp [step, h]

theorem step_nodecision (s : ControllerState) (x : IterInput)
    (h : s.disable_control = false)
    (hlt : s.iterations_since_decision + 1 < s.period) :
    step s x =
      ({ s with
          history := pushSample s.buffer_depth s.history
            ⟨x.iteration_id, x.perf, x.pwr, x.idle_ns⟩
          iterations_since_decision := s.iterations_since_decision + 1 },
        []) := by
  simp [step, h, hlt]

theorem step_decision (s : ControllerState) (x : IterInput)
    (h : s.disable_control = false)
    (hge : ¬ s.iterations_since_decision + 1 < s.period) :
    step s x =
      ({ s with
          history := pushSample s.buffer_depth s.history
            ⟨x.iteration_id, x.perf, x.pwr, x.idle_ns⟩
          iterations_since_decision := 0
          last_state_id := s.current_state_id
          current_state_id := stepChoice s x
          is_first_apply := false },
        if s.disable_apply then []
        else [⟨stepChoice s x, s.current_state_id, x.idle_ns,
                s.is_first_apply⟩]) := by
  simp [step, stepChoice, h, hge]

/-- Every configuration field survives a step unchanged; only history,
counters and the state-id bookkeeping move. -/
theorem step_config (s : ControllerState) (x : IterInput) :
    (step s x).1.disable_control = s.disable_control ∧
    (step s x).1.disable_apply = s.disable_apply ∧
    (step s x).1.constraint = s.constraint ∧
    (step s x).1.period = s.period ∧
    (step s x).1.table = s.table := by
  by_cases h : s.disable_control = true
  · rw [step_skip s x h]
    exact ⟨rfl, rfl, rfl, rfl, rfl⟩
  · have hf : s.disable_control = false := by
      revert h; cases s.disable_control <;> simp
    by_cases hlt : s.iterations_since_decision + 1 < s.period
    · rw [step_nodecision s x hf hlt]
      exact ⟨rfl, rfl, rfl, rfl, rfl⟩
    · rw [step_decision s x hf hlt]
      exact ⟨rfl, rfl, rfl, rfl, rfl⟩

theorem runSteps_constraint (xs : List IterInput) :
    ∀ s : ControllerState, (runSteps s xs).1.constraint = s.constraint := by
  induction xs with
  | nil => intro s; rfl
  | cons x xs ih =>
    intro s
    simp only [runSteps]
    rw [ih (step s x).1]
    exact (step_config s x).2.2.1

/-- The expected sequence of `is_first_apply` arguments over `n` apply
invocations starting from flag `b`: the first invocation carries `b`, every
later one carries `false`. -/
def firstFlags (b : Bool) : Nat → List Bool
  | 0 => []
  | n + 1 => b :: List.replicate n false

theorem firstFlags_false (n : Nat) :
    firstFlags false n = List.replicate n false := by
  cases n with
  | zero => rfl
  | succ n => simp [firstFlags, List.replicate_succ]

/-- With apply enabled, a step either dispatches nothing and keeps the
first-apply flag, or dispatches exactly one call carrying the flag and then
clears it. -/
theorem step_first_flag (s : ControllerState) (x : IterInput)
    (hda : s.disable_apply = false) :
    ((step s x).2 = [] ∧ (step s x).1.is_first_apply = s.is_first_apply) ∨
    ((step s x).2.map ApplyCall.is_first_apply = [s.is_first_apply] ∧
      (step s x).1.is_first_apply = false) := by
  by_cases hdc : s.disable_control = true
  · rw [step_skip s x hdc]
    exact Or.inl ⟨rfl, rfl⟩
  · have hcf : s.disable_control = false := by
      revert hdc; cases s.disable_control <;> simp
    by_cases hlt : s.iterations_since_decision + 1 < s.period
    · rw [step_nodecision s x hcf hlt]
      exact Or.inl ⟨rfl, rfl⟩
    · rw [step_decision s x hcf hlt]
      refine Or.inr ⟨?_, rfl⟩
      rw [hda]
      simp

/-- Along any run with apply enabled, the `is_first_apply` arguments form the
first-flag pattern seeded by the starting state's flag. -/
theorem runSteps_first_flags (xs : List IterInput) :
    ∀ s : ControllerState, s.disable_apply = false →
      (runSteps s xs).2.map ApplyCall.is_first_apply =
        firstFlags s.is_first_apply (runSteps s xs).2.length := by
  induction xs with
  | nil => intro s _; rfl
  | cons x xs ih =>
    intro s hda
    have hda' : (step s x).1.disable_apply = false :=
      (step_config s x).2.1.trans hda
    simp only [runSteps, List.map_append, List.length_append]
    rcases step_first_flag s x hda with ⟨hev, hff⟩ | ⟨hev, hff⟩
    · rw [hev, ih _ hda', hff]
      simp
    · have hlen : (step s x).2.length = 1 := by
        have hc := congrArg List.length hev
        simpa using hc
      rw [hev, ih _ hda', hff, firstFlags_false, hlen, Nat.add_comm]
      simp [firstFlags]

/-- Whether the next call lands on a decision point: control is enabled and
the period counter is about to reach the period. -/
def isDecisionPoint (s : ControllerState) : Bool :=
  !s.disable_control && !decide (s.iterations_since_decision + 1 < s.period)

/-- The number of decision points met along a run of inputs from a state. -/
def decisionPoints (s : ControllerState) : List IterInput → Nat
  | [] => 0
  | x :: xs =>
    (if isDecisionPoint s then 1 else 0) + decisionPoints (step s x).1 xs

/-- With apply enabled, a run dispatches exactly as many apply calls as it
meets decision points: never more, never skipped. -/
theorem runSteps_length_decisionPoints (xs : List IterInput) :
    ∀ s : ControllerState, s.disable_apply = false →
      (runSteps s xs).2.length = decisionPoints s xs := by
  induction xs with
  | nil => intro s _; rfl
  | cons x xs ih =>
    intro s hda
    have hda' : (step s x).1.disable_apply = false :=
      (step_config s x).2.1.trans hda
    simp only [runSteps, List.length_append, decisionPoints]
    rw [ih _ hda']
    congr 1
    by_cases hdc : s.disable_control = true
    · rw [step_skip s x hdc]
      simp [isDecisionPoint, hdc]
    · have hcf : s.disable_control = false := by
        revert hdc; cases s.disable_control <;> simp
      by_cases hlt : s.iterations_since_decision + 1 < s.period
      · rw [step_nodecision s x hcf hlt]
        simp [isDecisionPoint, hcf, hlt]
      · rw [step_decision s x hcf hlt, hda]
        simp [isDecisionPoint, hcf, hlt]

/-- C6: with the engine and apply enabled, the apply collaborator is invoked
exactly once per decision point and zero times in between — at every step of
the lifetime, and along any run the number of apply calls equals the number
of decision points met (never more, never skipped); the `is_first_apply`
argument follows the first-flag pattern seeded by the state's flag, so it is
true only on the very first invocation of a lifetime (initialization sets
the flag); and each decision step sets `last_state_id` to the previous
`current_state_id` and `current_state_id` to the newly chosen id, which is
also what the single apply call carries. -/
theorem C6_apply_dispatch :
    ∀ (s : ControllerState) (x : IterInput) (xs : List IterInput),
      s.disable_control = false → s.disable_apply = false →
      ((step s x).2.length =
        if s.iterations_since_decision + 1 < s.period then 0 else 1) ∧
      ((runSteps s xs).2.length = decisionPoints s xs) ∧
      ((runSteps s xs).2.map ApplyCall.is_first_apply =
        firstFlags s.is_first_apply (runSteps s xs).2.length) ∧
      (¬ s.iterations_since_decision + 1 < s.period →
        (step s x).1.last_state_id = s.current_state_id ∧
        (step s x).1.current_state_id = stepChoice s x ∧
        (step s x).2 =
          [⟨stepChoice s x, s.current_state_id, x.idle_ns,
            s.is_first_apply⟩]) ∧
      (∀ a : InitArgs, (initController a).is_first_apply = true) := by
  intro s x xs hdc hda
  refine ⟨?_, ?_, ?_, ?_, fun a => rfl⟩
  · by_cases hlt : s.iterations_since_decision + 1 < s.period
    · rw [step_nodecision s x hdc hlt]
      simp [hlt]
    · rw [step_decision s x hdc hlt, hda]
      simp [hlt]
  · exact runSteps_length_decisionPoints xs s hda
  · exact runSteps_first_flags xs s hda
  · intro hge
    rw [step_decision s x hdc hge, hda]
    exact ⟨rfl, rfl, by simp⟩

/-- A small running controller: the spec's two-state table, period 1,
first-apply pending, every toggle off. -/
def demoController : ControllerState :=
  ⟨⟨TradeoffType.PERFORMANCE, 1⟩, demoTable, 4, [], 1, 0, 0, 0,
    true, false, false, false, 0⟩

/-- A per-iteration input whose current-state probe succeeds with id 0. -/
def demoInput : IterInput := ⟨0, 1, 1, 0, some 0⟩

/-- Closed instance of C6 on a two-iteration run with period 1: every step
is a decision point, so both iterations dispatch exactly one call each. -/
theorem C6_apply_dispatch_witness :
    demoController.disable_control = false ∧
    demoController.disable_apply = false ∧
    (((step demoController demoInput).2.length =
        if demoController.iterations_since_decision + 1 <
            demoController.period then 0 else 1) ∧
      ((runSteps demoController [demoInput, demoInput]).2.length =
        decisionPoints demoController [demoInput, demoInput]) ∧
      ((runSteps demoController [demoInput, demoInput]).2.map
          ApplyCall.is_first_apply =
        firstFlags demoController.is_first_apply
          (runSteps demoController [demoInput, demoInput]).2.length) ∧
      (¬ demoController.iterations_since_decision + 1 <
            demoController.period →
        (step demoController demoInput).1.last_state_id =
          demoController.current_state_id ∧
        (step demoController demoInput).1.current_state_id =
          stepChoice demoController demoInput ∧
        (step demoController demoInput).2 =
          [⟨stepChoice demoController demoInput,
            demoController.current_state_id, demoInput.idle_ns,
            demoController.is_first_apply⟩]) ∧
      (∀ a : InitArgs, (initController a).is_first_apply = true)) :=
  ⟨rfl, rfl,
   C6_apply_dispatch demoController demoInput [demoInput, demoInput]
     rfl rfl⟩

/-- C7: when the current-state probe fails, the controller recovers locally —
the id fed to the engine's speedup/cost scaling is the last known
`current_state_id`, no id is fabricated, and the whole step behaves exactly
as if the probe had reported that last known id (the loop continues). -/
theorem C7_probe_failure_fallback :
    ∀ (s : ControllerState) (x : IterInput),
      x.probe = none →
      usedCurrId s x.probe = s.current_state_id ∧
      stepChoice s x =
        resolveIdle s.disable_idle
          (decide (s.idle_threshold_ns ≤ idleSumOf (pushSample s.buffer_depth
            s.history ⟨x.iteration_id, x.perf, x.pwr, x.idle_ns⟩)))
          s.table
          (engineChoiceAt s.table s.constraint s.current_state_id
            (pushSample s.buffer_depth s.history
              ⟨x.iteration_id, x.perf, x.pwr, x.idle_ns⟩)) ∧
      step s x = step s { x with probe := some s.current_state_id } := by
  intro s x hp
  have h1 : usedCurrId s x.probe = s.current_state_id := by
    rw [hp]; rfl
  refine ⟨h1, ?_, ?_⟩
  · simp only [stepChoice, h1]
  · cases x with
    | mk iid pf pw idl pr =>
      simp only at hp
      subst hp
      simp [step, stepChoice, usedCurrId]

/-- A per-iteration input whose current-state probe fails. -/
def demoFailInput : IterInput := ⟨0, 1, 1, 0, none⟩

/-- Closed instance of C7: a failing probe on the demonstration controller. -/
theorem C7_probe_failure_fallback_witness :
    demoFailInput.probe = none ∧
    (usedCurrId demoController demoFailInput.probe =
        demoController.current_state_id ∧
      stepChoice demoController demoFailInput =
        resolveIdle demoController.disable_idle
          (decide (demoController.idle_threshold_ns ≤
            idleSumOf (pushSample demoController.buffer_depth
              demoController.history
              ⟨demoFailInput.iteration_id, demoFailInput.perf,
                demoFailInput.pwr, demoFailInput.idle_ns⟩)))
          demoController.table
          (engineChoiceAt demoController.table demoController.constraint
            demoController.current_state_id
            (pushSample demoController.buffer_depth demoController.history
              ⟨demoFailInput.iteration_id, demoFailInput.perf,
                demoFailInput.pwr, demoFailInput.idle_ns⟩)) ∧
      step demoController demoFailInput =
        step demoController
          { demoFailInput with
              probe := some demoController.current_state_id }) :=
  ⟨rfl, C7_probe_failure_fallback demoController demoFailInput rfl⟩

/-- C8: `poet_set_constraint_type` substitutes exactly the constraint pair —
history, table, state ids, period counter and first-apply flag are untouched
— and the replacement is observable only at the next decision boundary: a
step strictly inside the period dispatches nothing and leaves the chosen
state unchanged, the new pair persists across any further run, and the first
boundary step decides with the new pair as the engine's constraint. -/
theorem C8_set_constraint :
    ∀ (s : ControllerState) (t : TradeoffType) (g : ℚ) (x : IterInput)
      (xs : List IterInput),
      (poet_set_constraint_type s t g).constraint = ⟨t, g⟩ ∧
      (poet_set_constraint_type s t g).history = s.history ∧
      (poet_set_constraint_type s t g).table = s.table ∧
      (poet_set_constraint_type s t g).current_state_id =
        s.current_state_id ∧
      (poet_set_constraint_type s t g).last_state_id = s.last_state_id ∧
      (poet_set_constraint_type s t g).iterations_since_decision =
        s.iterations_since_decision ∧
      (poet_set_constraint_type s t g).is_first_apply = s.is_first_apply ∧
      (s.disable_control = false →
        s.iterations_since_decision + 1 < s.period →
        (step (poet_set_constraint_type s t g) x).2 = [] ∧
        (step (poet_set_constraint_type s t g) x).1.current_state_id =
          s.current_state_id) ∧
      (runSteps (poet_set_constraint_type s t g) xs).1.constraint = ⟨t, g⟩ ∧
      (s.disable_control = false →
        ¬ s.iterations_since_decision + 1 < s.period →
        (step (poet_set_constraint_type s t g) x).1.current_state_id =
          resolveIdle s.disable_idle
            (decide (s.idle_threshold_ns ≤
              idleSumOf (pushSample s.buffer_depth s.history
                ⟨x.iteration_id, x.perf, x.pwr, x.idle_ns⟩)))
            s.table
            (engineChoiceAt s.table ⟨t, g⟩ (usedCurrId s x.probe)
              (pushSample s.buffer_depth s.history
                ⟨x.iteration_id, x.perf, x.pwr, x.idle_ns⟩))) := by
  intro s t g x xs
  refine ⟨rfl, rfl, rfl, rfl, rfl, rfl, rfl, ?_, ?_, ?_⟩
  · intro hdc hlt
    rw [step_nodecision (poet_set_constraint_type s t g) x hdc hlt]
    exact ⟨rfl, rfl⟩
  · exact runSteps_constraint xs (poet_set_constraint_type s t g)
  · intro hdc hge
    rw [step_decision (poet_set_constraint_type s t g) x hdc hge]
    rfl

/-- Closed instance of C8 on the demonstration controller. -/
theorem C8_set_constraint_witness :
    (poet_set_constraint_type demoController TradeoffType.POWER 2).constraint
        = ⟨TradeoffType.POWER, 2⟩ ∧
    (poet_set_constraint_type demoController TradeoffType.POWER 2).history =
      demoController.history ∧
    (poet_set_constraint_type demoController TradeoffType.POWER 2).table =
      demoController.table ∧
    (poet_set_constraint_type demoController
        TradeoffType.POWER 2).current_state_id =
      demoController.current_state_id ∧
    (poet_set_constraint_type demoController
        TradeoffType.POWER 2).last_state_id =
      demoController.last_state_id ∧
    (poet_set_constraint_type demoController
        TradeoffType.POWER 2).iterations_since_decision =
      demoController.iterations_since_decision ∧
    (poet_set_constraint_type demoController
        TradeoffType.POWER 2).is_first_apply =
      demoController.is_first_apply ∧
    (demoController.disable_control = false →
      demoController.iterations_since_decision + 1 < demoController.period →
      (step (poet_set_constraint_type demoController TradeoffType.POWER 2)
          demoInput).2 = [] ∧
      (step (poet_set_constraint_type demoController TradeoffType.POWER 2)
          demoInput).1.current_state_id = demoController.current_state_id) ∧
    (runSteps (poet_set_constraint_type demoController TradeoffType.POWER 2)
        [demoInput]).1.constraint = ⟨TradeoffType.POWER, 2⟩ ∧
    (demoController.disable_control = false →
      ¬ demoController.iterations_since_decision + 1 <
          demoController.period →
      (step (poet_set_constraint_type demoController TradeoffType.POWER 2)
          demoInput).1.current_state_id =
        resolveIdle demoController.disable_idle
          (decide (demoController.idle_threshold_ns ≤
            idleSumOf (pushSample demoController.buffer_depth
              demoController.history
              ⟨demoInput.iteration_id, demoInput.perf, demoInput.pwr,
                demoInput.idle_ns⟩)))
          demoController.table
          (engineChoiceAt demoController.table ⟨TradeoffType.POWER, 2⟩
            (usedCurrId demoController demoInput.probe)
            (pushSample demoController.buffer_depth demoController.history
              ⟨demoInput.iteration_id, demoInput.perf, demoInput.pwr,
                demoInput.idle_ns⟩))) :=
  C8_set_constraint demoController TradeoffType.POWER 2 demoInput [demoInput]

/-- The table invariant of spec §3: state ids are unique. -/
def idsNodup (table : List ControlState) : Prop :=
  (table.map ControlState.id).Nodup

/-- Whether an id denotes an idle state of the table: its entry declares a
distinct idle partner (poet.h lines 61-75). -/
def isIdleId (table : List ControlState) (i : Nat) : Bool :=
  match lookupState table i with
  | some s => decide (s.idle_partner_id ≠ s.id)
  | none => false

theorem lookupState_self {table : List ControlState} {t : ControlState}
    (hnd : idsNodup table) (ht : t ∈ table) :
    lookupState table t.id = some t := by
  induction table with
  | nil => cases ht
  | cons h rest ih =>
    have hnd' : (rest.map ControlState.id).Nodup :=
      (List.nodup_cons.mp hnd).2
    rcases List.mem_cons.mp ht with ht | ht
    · subst ht
      simp [lookupState, List.find?_cons]
    · have hne : h.id ≠ t.id := by
        intro he
        have : t.id ∈ rest.map ControlState.id :=
          List.mem_map.mpr ⟨t, ht, rfl⟩
        rw [← he] at this
        exact (List.nodup_cons.mp hnd).1 this
      have := ih hnd' ht
      simp only [lookupState, List.find?_cons] at this ⊢
      have hb : (h.id == t.id) = false := by
        simpa using hne
      rw [hb]
      exact this

/-- C9: idle resolution is idempotent on tables with unique ids — an id that
already denotes an idle state resolves to itself, and resolving any id twice
equals resolving it once. -/
theorem C9_idle_resolution_idempotent :
    ∀ (dis warr : Bool) (table : List ControlState) (i : Nat),
      idsNodup table →
      (isIdleId table i = true → resolveIdle dis warr table i = i) ∧
      resolveIdle dis warr table (resolveIdle dis warr table i) =
        resolveIdle dis warr table i := by
  intro dis warr table i hnd
  by_cases hdw : (dis || !warr) = true
  · constructor
    · intro _
      simp [resolveIdle, hdw]
    · simp [resolveIdle, hdw]
  · have hdw' : (dis || !warr) = false := by
      revert hdw; cases dis || !warr <;> simp
    constructor
    · intro hidle
      cases hl : lookupState table i with
      | none =>
        simp [isIdleId, hl] at hidle
      | some chosen =>
        have hip : chosen.idle_partner_id ≠ chosen.id := by
          simpa [isIdleId, hl] using hidle
        simp [resolveIdle, hdw', hl, hip]
    · cases hl : lookupState table i with
      | none =>
        have hin : resolveIdle dis warr table i = i := by
          simp [resolveIdle, hdw', hl]
        rw [hin]
        exact hin
      | some chosen =>
        by_cases hip : chosen.idle_partner_id ≠ chosen.id
        · have hin : resolveIdle dis warr table i = i := by
            simp [resolveIdle, hdw', hl, hip]
          rw [hin]
          exact hin
        · cases hf : table.find? (fun t =>
              t.idle_partner_id == chosen.id && !(t.id == chosen.id)) with
          | none =>
            have hin : resolveIdle dis warr table i = i := by
              simp [resolveIdle, hdw', hl, hip, hf]
            rw [hin]
            exact hin
          | some t =>
            have hin : resolveIdle dis warr table i = t.id := by
              simp [resolveIdle, hdw', hl, hip, hf]
            rw [hin]
            have htm : t ∈ table := List.mem_of_find?_eq_some hf
            have hpt := List.find?_some hf
            simp only [Bool.and_eq_true, beq_iff_eq, Bool.not_eq_true',
              beq_eq_false_iff_ne] at hpt
            obtain ⟨hp1, hp2⟩ := hpt
            have hlk : lookupState table t.id = some t :=
              lookupState_self hnd htm
            have hne : t.idle_partner_id ≠ t.id := by
              rw [hp1]
              exact fun h => hp2 h.symm
            simp [resolveIdle, hdw', hlk, hne, hin]

/-- A table with an idle state: id 0 idles and partners the non-idling
state 1. -/
def idleDemoTable : List ControlState :=
  [⟨0, 1, 1, 1⟩, ⟨1, 1, 1, 1⟩]

/-- Closed instance of C9: on the idle demonstration table, the idle id 0
resolves to itself and resolution is idempotent. -/
theorem C9_idle_resolution_idempotent_witness :
    idsNodup idleDemoTable ∧
    ((isIdleId idleDemoTable 0 = true →
        resolveIdle false true idleDemoTable 0 = 0) ∧
      resolveIdle false true idleDemoTable
          (resolveIdle false true idleDemoTable 0) =
        resolveIdle false true idleDemoTable 0) :=
  ⟨by show (idleDemoTable.map ControlState.id).Nodup; decide,
   C9_idle_resolution_idempotent false true idleDemoTable 0
     (by show (idleDemoTable.map ControlState.id).Nodup; decide)⟩
